import Mathlib

/-!
Verification of the view-synthesis / loss-computation core of a
self-supervised depth-and-ego-motion training pipeline.

The Python sources are shallowly embedded: tensors become (nested) lists,
pixels become triples of exact numbers, dictionary lookups become
association-list lookups returning `Option`, and exceptions become
`Except`.  Real-valued operations (`exp`, trigonometric functions) are
embedded over `ℝ`; purely arithmetic kernels are embedded over `ℚ` so
that concrete instances evaluate.
-/

namespace Vode

/-- An RGB pixel: one value per color channel. -/
structure Pix where
  r : ℚ
  g : ℚ
  b : ℚ
  deriving DecidableEq, Repr

/-- Channel mean of a pixel: embeds `tf.reduce_mean(synt_target, axis=-1)`. -/
def pixGray (p : Pix) : ℚ := (p.r + p.g + p.b) / 3

/-- Sum of the channel values of a pixel. -/
def pixSum (p : Pix) : ℚ := p.r + p.g + p.b

/-- Per-pixel absolute error, embedding `tf.abs(synt_target - orig_target)`. -/
def pixAbsErr (s o : Pix) : Pix := ⟨|s.r - o.r|, |s.g - o.g|, |s.b - o.b|⟩

/-- One pixel of the masked error tensor of `photometric_loss_l1`:
`tf.where(error_mask, 0, photo_error)` with the mask
`tf.equal(reduce_mean(synt, axis=-1), 0)` broadcast over channels. -/
def maskedErrPix (s o : Pix) : Pix :=
  if pixGray s = 0 then ⟨0, 0, 0⟩ else pixAbsErr s o

/-- Masked error tensor for one example: `synt` holds one row of pixels per
source image (the spatial dimensions flattened), `orig` is the single
target row broadcast against every source row. -/
def photoErrorTensor (synt : List (List Pix)) (orig : List Pix) :
    List (List Pix) :=
  synt.map (fun row => List.zipWith maskedErrPix row orig)

/-- Number of scalar elements of a pixel tensor (3 channels per pixel). -/
def tensorCount (t : List (List Pix)) : ℚ :=
  3 * ((t.map List.length).sum : ℕ)

/-- Sum of all scalar elements of a pixel tensor. -/
def tensorSum (t : List (List Pix)) : ℚ :=
  (t.map (fun row => (row.map pixSum).sum)).sum

/-- Embeds `photometric_loss_l1` from `model/loss_and_metric/loss_util.py`
for one batch example: the absolute synthesized-vs-target error is zeroed
wherever the synthesized pixel's channel mean is 0, and
`tf.reduce_mean(photo_error, axis=[1,2,3,4])` divides the summed error by
the number of elements of the error tensor. -/
def photometric_loss_l1 (synt : List (List Pix)) (orig : List Pix) : ℚ :=
  let photoError := photoErrorTensor synt orig
  tensorSum photoError / tensorCount photoError

/-- The loss the spec describes: absolute errors summed over only the
non-masked pixels and divided by the number of scalar elements of those
non-masked pixels alone. -/
def maskedOutMeanL1 (synt : List (List Pix)) (orig : List Pix) : ℚ :=
  let pairs := (synt.map (fun row => List.zip row orig)).flatten
  let valid := pairs.filter (fun so => pixGray so.1 ≠ 0)
  (valid.map (fun so => pixSum (pixAbsErr so.1 so.2))).sum / (3 * valid.length)

/-- Numerator of the amended statement: absolute errors summed over only the
non-masked synthesized pixels (a filter, not a zero-out). -/
def unmaskedErrSum (synt : List (List Pix)) (orig : List Pix) : ℚ :=
  let pairs := (synt.map (fun row => List.zip row orig)).flatten
  ((pairs.filter (fun so => pixGray so.1 ≠ 0)).map
    (fun so => pixSum (pixAbsErr so.1 so.2))).sum

lemma maskedRow_sum (row orig : List Pix) :
    ((List.zipWith maskedErrPix row orig).map pixSum).sum
      = (((row.zip orig).filter (fun so => pixGray so.1 ≠ 0)).map
          (fun so => pixSum (pixAbsErr so.1 so.2))).sum := by
  induction row generalizing orig with
  | nil => simp
  | cons s rest ih =>
    cases orig with
    | nil => simp
    | cons o os =>
      by_cases h : pixGray s = 0
      · simp [maskedErrPix, h, ih, pixSum]
      · simp [maskedErrPix, h, ih]

/-- C1. The claim as stated is false on the code: `photometric_loss_l1`
zeroes the masked errors but still divides by the total element count, so
for this input (one source row; first synthesized pixel valid, second
exactly black) the returned loss 3/2 differs from the mean over only the
non-masked pixels, which is 3. -/
theorem c1_counterexample :
    photometric_loss_l1 [[⟨3,3,3⟩, ⟨0,0,0⟩]] [⟨0,0,0⟩, ⟨6,6,6⟩] ≠
      maskedOutMeanL1 [[⟨3,3,3⟩, ⟨0,0,0⟩]] [⟨0,0,0⟩, ⟨6,6,6⟩] := by
  norm_num [photometric_loss_l1, maskedOutMeanL1, photoErrorTensor, tensorSum,
    tensorCount, maskedErrPix, pixAbsErr, pixGray, pixSum]

/-- C1 (amended). Any synthesized pixel whose channel mean is exactly zero
contributes exactly 0 to the summed photometric error — the numerator of the
returned mean equals the sum of absolute errors over only the non-masked
pixels — but the mean still divides by the total element count of the error
tensor, masked pixels included (zeroed-and-averaged, not excluded from the
count). -/
theorem c1_photometric_l1_masked_zero_total_count (synt : List (List Pix))
    (orig : List Pix) :
    photometric_loss_l1 synt orig
      = unmaskedErrSum synt orig / tensorCount (photoErrorTensor synt orig) := by
  have hnum : tensorSum (photoErrorTensor synt orig) = unmaskedErrSum synt orig := by
    unfold tensorSum photoErrorTensor unmaskedErrSum
    induction synt with
    | nil => simp
    | cons row rest ih =>
      simp only [List.map_cons, List.sum_cons, List.flatten_cons, List.filter_append,
        List.map_append, List.sum_append, maskedRow_sum] at ih ⊢
      rw [ih]
  rw [photometric_loss_l1, hnum]

section TotalLossSection

variable {Feat Pred Augm : Type}

/-- Embeds the `augm_data` construction at the top of `TotalLoss.__call__`:
`augment_data` is called once, and once more with suffix `"_R"` (the results
merged by `dict.update`) when stereo is enabled.  The augmentation itself
(view synthesis, pyramids) is kept abstract as a parameter. -/
def totalLoss_augm (augmentData : Feat → Pred → String → Augm)
    (mergeAugm : Augm → Augm → Augm) (stereo : Bool)
    (predictions : Pred) (features : Feat) : Augm :=
  let augmData := augmentData features predictions ("")
  if stereo then mergeAugm augmData (augmentData features predictions ("_R"))
  else augmData

/-- Embeds the loss loop and reduction of `TotalLoss.__call__`
(`model/loss_and_metric/losses.py`): for each `(calc_loss, weight)` pair of
`zip(self.calc_losses, self.loss_weights)` the weighted loss is appended to
a list; the returned pair is `(reduce_sum(losses), losses)`. -/
def totalLoss_call (augmentData : Feat → Pred → String → Augm)
    (mergeAugm : Augm → Augm → Augm) (stereo : Bool)
    (calcLosses : List (Feat → Pred → Augm → ℚ)) (lossWeights : List ℚ)
    (predictions : Pred) (features : Feat) : ℚ × List ℚ :=
  let augmData := totalLoss_augm augmentData mergeAugm stereo predictions features
  let losses := (calcLosses.zip lossWeights).foldl
      (fun acc cw => acc ++ [cw.1 features predictions augmData * cw.2]) []
  (losses.sum, losses)

lemma foldl_append_singleton {α β : Type} (g : α → β) (l : List α)
    (init : List β) :
    l.foldl (fun acc x => acc ++ [g x]) init = init ++ l.map g := by
  induction l generalizing init with
  | nil => simp
  | cons x xs ih => simp [ih]

/-- C2. `TotalLoss.__call__` returns a total loss equal to the sum over the
configured `(term, weight)` pairs of `term value * weight`, together with the
list of per-term weighted scalars in exactly the order of the configured
term list. -/
theorem c2_total_loss_weighted_sum (augmentData : Feat → Pred → String → Augm)
    (mergeAugm : Augm → Augm → Augm) (stereo : Bool)
    (calcLosses : List (Feat → Pred → Augm → ℚ)) (lossWeights : List ℚ)
    (predictions : Pred) (features : Feat) :
    (totalLoss_call augmentData mergeAugm stereo calcLosses lossWeights
        predictions features).1
      = ((calcLosses.zip lossWeights).map
          (fun cw => cw.1 features predictions
            (totalLoss_augm augmentData mergeAugm stereo predictions features)
            * cw.2)).sum
    ∧ (totalLoss_call augmentData mergeAugm stereo calcLosses lossWeights
        predictions features).2
      = (calcLosses.zip lossWeights).map
          (fun cw => cw.1 features predictions
            (totalLoss_augm augmentData mergeAugm stereo predictions features)
            * cw.2) := by
  unfold totalLoss_call
  simp only [foldl_append_singleton, List.nil_append]
  simp

end TotalLossSection

/-- A 3-vector (also used for one RGB pixel of a real-valued image and for
one row of a 3×3 matrix). -/
structure V3 (α : Type) where
  x : α
  y : α
  z : α
  deriving DecidableEq, Repr

/-- A homogeneous 3D point. -/
structure V4 (α : Type) where
  x : α
  y : α
  z : α
  w : α
  deriving DecidableEq, Repr

/-- A 3×3 matrix given by its rows. -/
structure M33 (α : Type) where
  r0 : V3 α
  r1 : V3 α
  r2 : V3 α
  deriving DecidableEq, Repr

/-- A single-channel map (disparity): rows of scalars. -/
abbrev Grid := List (List ℝ)

/-- A 3-channel image: rows of RGB pixels. -/
abbrev Image := List (List (V3 ℝ))

/-- Horizontal gradient `img[:, :-1, :] - img[:, 1:, :]` of a single-channel
map (`gradient_x` inside `SmoothenessLossMultiScale.smootheness_loss`). -/
noncomputable def gradient_x (g : Grid) : Grid :=
  g.map (fun row => List.zipWith (fun a b => a - b) row row.tail)

/-- Vertical gradient `img[:-1, :, :] - img[1:, :, :]` of a single-channel
map. -/
noncomputable def gradient_y (g : Grid) : Grid :=
  List.zipWith (fun ra rb => List.zipWith (fun a b => a - b) ra rb) g g.tail

/-- Channel-wise pixel difference. -/
noncomputable def pixSub (a b : V3 ℝ) : V3 ℝ := ⟨a.x - b.x, a.y - b.y, a.z - b.z⟩

/-- Horizontal gradient of a 3-channel image. -/
noncomputable def gradImg_x (im : Image) : Image :=
  im.map (fun row => List.zipWith pixSub row row.tail)

/-- Vertical gradient of a 3-channel image. -/
noncomputable def gradImg_y (im : Image) : Image :=
  List.zipWith (fun ra rb => List.zipWith pixSub ra rb) im im.tail

/-- Edge weights `exp(-reduce_mean(abs(image_gradient), axis=3))` applied to
an image gradient. -/
noncomputable def edgeWeights (gim : Image) : Grid :=
  gim.map (fun row => row.map (fun p => Real.exp (-((|p.x| + |p.y| + |p.z|) / 3))))

/-- Elementwise product of two single-channel maps. -/
noncomputable def gridMul (a b : Grid) : Grid :=
  List.zipWith (fun ra rb => List.zipWith (fun u v => u * v) ra rb) a b

/-- `tf.reduce_mean(tf.abs(g))` over all elements of a single-channel map. -/
noncomputable def meanAbsAll (g : Grid) : ℝ :=
  (g.map (fun r => (r.map (fun v => |v|)).sum)).sum
    / ((g.map List.length).sum : ℕ)

/-- Embeds `SmoothenessLossMultiScale.smootheness_loss`: disparity gradients
weighted by edge weights, each direction reduced by `0.5 * mean(abs(...))`,
and the two directions summed. -/
noncomputable def smootheness_loss (disp : Grid) (image : Image) : ℝ :=
  let smoothnessX := gridMul (gradient_x disp) (edgeWeights (gradImg_x image))
  let smoothnessY := gridMul (gradient_y disp) (edgeWeights (gradImg_y image))
  0.5 * meanAbsAll smoothnessX + 0.5 * meanAbsAll smoothnessY

/-- Width (`shape[2]`) of an image. -/
def imgWidth (im : Image) : ℕ := (im.headD []).length

/-- Embeds the numeric body of `SmoothenessLossMultiScale.__call__`:
`orig_width = target_ms[0].shape[2]`, per level the smoothness loss divided
by `scale = orig_width / image_width`, and the per-level values summed. -/
noncomputable def smoothenessLossMultiScale_body (dispMs : List Grid)
    (targetMs : List Image) : ℝ :=
  let origWidth : ℝ := (imgWidth (targetMs.headD []) : ℕ)
  let losses := (dispMs.zip targetMs).map
      (fun di => smootheness_loss di.1 di.2 / (origWidth / (imgWidth di.2 : ℕ)))
  losses.sum

/-- The horizontal smoothness term as the spec words it: disparity gradient
weighted by `exp(-|image gradient|)`, reduced over the map. -/
noncomputable def horizSmooth (disp : Grid) (image : Image) : ℝ :=
  0.5 * meanAbsAll (gridMul (gradient_x disp) (edgeWeights (gradImg_x image)))

/-- The vertical smoothness term as the spec words it. -/
noncomputable def vertSmooth (disp : Grid) (image : Image) : ℝ :=
  0.5 * meanAbsAll (gridMul (gradient_y disp) (edgeWeights (gradImg_y image)))

/-- The multi-scale smoothness total as the spec words it: per pyramid level,
horizontal and vertical terms summed, normalized by the level's resolution
ratio (original width over level width), then summed across levels. -/
noncomputable def specSmoothTotal (dispMs : List Grid) (targetMs : List Image) : ℝ :=
  ∑ i ∈ Finset.range (min dispMs.length targetMs.length),
    (horizSmooth (dispMs.getD i []) (targetMs.getD i [])
        + vertSmooth (dispMs.getD i []) (targetMs.getD i []))
      / ((imgWidth (targetMs.headD []) : ℕ) / ((imgWidth (targetMs.getD i []) : ℕ) : ℝ))

lemma zip_map_sum_eq_range_sum {α β : Type} (f : α × β → ℝ) (d1 : α) (d2 : β) :
    ∀ (l1 : List α) (l2 : List β),
      ((l1.zip l2).map f).sum
        = ∑ i ∈ Finset.range (min l1.length l2.length),
            f (l1.getD i d1, l2.getD i d2) := by
  intro l1
  induction l1 with
  | nil => intro l2; simp
  | cons a as ih =>
    intro l2
    cases l2 with
    | nil => simp
    | cons b bs =>
      rw [List.zip_cons_cons, List.map_cons, List.sum_cons, ih bs,
        List.length_cons, List.length_cons, Nat.succ_min_succ,
        Finset.sum_range_succ']
      simp [add_comm]

/-- C6. The multi-scale edge-aware smoothness loss equals the sum over
pyramid levels of (horizontal term + vertical term) divided by the level's
resolution ratio `original width / level width`, where each directional term
is the mean absolute disparity gradient weighted by the exponentiated
negative image gradient. -/
theorem c6_smootheness_multi_scale (dispMs : List Grid) (targetMs : List Image) :
    smoothenessLossMultiScale_body dispMs targetMs
      = specSmoothTotal dispMs targetMs := by
  unfold smoothenessLossMultiScale_body specSmoothTotal
  rw [zip_map_sum_eq_range_sum _ [] []]
  apply Finset.sum_congr rfl
  intro i _
  rw [smootheness_loss, horizSmooth, vertSmooth]

/-- The two photometric loss functions `PhotometricLoss.__init__` can
select. -/
inductive PhotoMethod
  | l1
  | ssim
  deriving DecidableEq, Repr

/-- Embeds `PhotometricLoss.__init__` (`model/loss_and_metric/losses.py`):
`"L1"` and `"SSIM"` select the corresponding loss function; any other name
raises `WrongInputException` with a descriptive message. -/
def PhotometricLoss_init (method : String) : Except String PhotoMethod :=
  if method = "L1" then .ok .l1
  else if method = "SSIM" then .ok .ssim
  else .error ("Wrong photometric loss name: " ++ method)

/-- Embeds `SmoothenessLossMultiScale.__call__` together with Python's
dictionary-access semantics: `predictions["disp_ms" + suffix]` and
`augm_data["target_ms" + suffix]` raise `KeyError` when the key is absent,
and both lookups happen before any numeric work. -/
noncomputable def SmoothenessLossMultiScale_call (keySuffix : String)
    (predictions : List (String × List Grid))
    (augmData : List (String × List Image)) : Except String ℝ :=
  match predictions.lookup ("disp_ms" ++ keySuffix) with
  | none => .error ("KeyError: disp_ms" ++ keySuffix)
  | some dispMs =>
    match augmData.lookup ("target_ms" ++ keySuffix) with
    | none => .error ("KeyError: target_ms" ++ keySuffix)
    | some targetMs => .ok (smoothenessLossMultiScale_body dispMs targetMs)

/-- C3. Configuration errors fail fast with a descriptive condition: an
unknown photometric loss-method name makes `PhotometricLoss.__init__` raise
`WrongInputException`, and a missing `disp_ms` prediction key makes
`SmoothenessLossMultiScale.__call__` raise a key error before any numeric
value is produced — the term is never silently skipped. -/
theorem c3_config_errors_fail_fast :
    (∀ method : String, method ≠ "L1" → method ≠ "SSIM" →
        PhotometricLoss_init method
          = .error ("Wrong photometric loss name: " ++ method))
    ∧ (∀ (keySuffix : String) (predictions : List (String × List Grid))
        (augmData : List (String × List Image)),
        predictions.lookup ("disp_ms" ++ keySuffix) = none →
        SmoothenessLossMultiScale_call keySuffix predictions augmData
          = .error ("KeyError: disp_ms" ++ keySuffix)) := by
  constructor
  · intro method h1 h2
    simp [PhotometricLoss_init, h1, h2]
  · intro keySuffix predictions augmData hlook
    simp [SmoothenessLossMultiScale_call, hlook]

/-- C3 witness: the unknown method name `"L3"` is rejected with the
descriptive message, and a call with an empty predictions mapping fails with
the missing-key condition. -/
theorem c3_config_errors_fail_fast_witness :
    PhotometricLoss_init ("L3")
        = .error ("Wrong photometric loss name: " ++ "L3")
    ∧ SmoothenessLossMultiScale_call ("") [] []
        = .error ("KeyError: disp_ms" ++ "") :=
  ⟨c3_config_errors_fail_fast.1 ("L3") (by decide) (by decide),
   c3_config_errors_fail_fast.2 ("") [] [] rfl⟩

/-- Row of a 3×3 matrix divided entrywise by a scalar. -/
def rowDiv (r : V3 ℚ) (s : ℚ) : V3 ℚ := ⟨r.x / s, r.y / s, r.z / s⟩

/-- The all-zero 3×3 matrix, used as the out-of-range fallback of `getD`. -/
def zeroM33 : M33 ℚ := ⟨⟨0, 0, 0⟩, ⟨0, 0, 0⟩, ⟨0, 0, 0⟩⟩

/-- Embeds `SynthesizeBatchBasic.scale_intrinsic`
(`model/synthesize/synthesize_base.py`): `tf.slice` keeps the first two rows
of every batch element, those rows are divided by the scale, and the
constant row `[0, 0, 1]` tiled to the batch size is concatenated below. -/
def scale_intrinsic (intrinsic : List (M33 ℚ)) (scale : ℚ) : List (M33 ℚ) :=
  let scaledPart := intrinsic.map
      (fun K => (rowDiv K.r0 scale, rowDiv K.r1 scale))
  let constPart := List.replicate intrinsic.length (⟨0, 0, 1⟩ : V3 ℚ)
  (scaledPart.zip constPart).map (fun pc => ⟨pc.1.1, pc.1.2, pc.2⟩)

lemma scale_intrinsic_cons (K : M33 ℚ) (rest : List (M33 ℚ)) (s : ℚ) :
    scale_intrinsic (K :: rest) s
      = ⟨rowDiv K.r0 s, rowDiv K.r1 s, ⟨0, 0, 1⟩⟩ :: scale_intrinsic rest s := by
  simp [scale_intrinsic, List.replicate_succ]

/-- C4. For every batch of intrinsic matrices and every scale factor, the
scaled batch has the same length, every element's first two rows (focal
lengths and principal point) equal the corresponding rows of the input
divided by the scale, and every element's bottom row is exactly `[0, 0, 1]`. -/
theorem c4_scale_intrinsic_rows (Ks : List (M33 ℚ)) (s : ℚ) :
    (scale_intrinsic Ks s).length = Ks.length
    ∧ ∀ i, i < Ks.length →
        (scale_intrinsic Ks s).getD i zeroM33
          = ⟨⟨(Ks.getD i zeroM33).r0.x / s, (Ks.getD i zeroM33).r0.y / s,
              (Ks.getD i zeroM33).r0.z / s⟩,
             ⟨(Ks.getD i zeroM33).r1.x / s, (Ks.getD i zeroM33).r1.y / s,
              (Ks.getD i zeroM33).r1.z / s⟩,
             ⟨0, 0, 1⟩⟩ := by
  constructor
  · simp [scale_intrinsic]
  · intro i h
    induction Ks generalizing i with
    | nil => simp at h
    | cons K rest ih =>
      cases i with
      | zero => simp [scale_intrinsic_cons, rowDiv]
      | succ n =>
        rw [scale_intrinsic_cons]
        simp only [List.getD_cons_succ]
        exact ih n (Nat.lt_of_succ_lt_succ h)

/-- C4 witness: a singleton batch with scale 2; the first two rows are
halved and the bottom row is `[0, 0, 1]`. -/
theorem c4_scale_intrinsic_rows_witness :
    (scale_intrinsic [⟨⟨2, 0, 4⟩, ⟨0, 6, 8⟩, ⟨0, 0, 1⟩⟩] 2).length
        = [(⟨⟨2, 0, 4⟩, ⟨0, 6, 8⟩, ⟨0, 0, 1⟩⟩ : M33 ℚ)].length
    ∧ (scale_intrinsic [⟨⟨2, 0, 4⟩, ⟨0, 6, 8⟩, ⟨0, 0, 1⟩⟩] 2).getD 0 zeroM33
        = ⟨⟨([(⟨⟨2, 0, 4⟩, ⟨0, 6, 8⟩, ⟨0, 0, 1⟩⟩ : M33 ℚ)].getD 0 zeroM33).r0.x / 2,
            ([(⟨⟨2, 0, 4⟩, ⟨0, 6, 8⟩, ⟨0, 0, 1⟩⟩ : M33 ℚ)].getD 0 zeroM33).r0.y / 2,
            ([(⟨⟨2, 0, 4⟩, ⟨0, 6, 8⟩, ⟨0, 0, 1⟩⟩ : M33 ℚ)].getD 0 zeroM33).r0.z / 2⟩,
           ⟨([(⟨⟨2, 0, 4⟩, ⟨0, 6, 8⟩, ⟨0, 0, 1⟩⟩ : M33 ℚ)].getD 0 zeroM33).r1.x / 2,
            ([(⟨⟨2, 0, 4⟩, ⟨0, 6, 8⟩, ⟨0, 0, 1⟩⟩ : M33 ℚ)].getD 0 zeroM33).r1.y / 2,
            ([(⟨⟨2, 0, 4⟩, ⟨0, 6, 8⟩, ⟨0, 0, 1⟩⟩ : M33 ℚ)].getD 0 zeroM33).r1.z / 2⟩,
           ⟨0, 0, 1⟩⟩ :=
  ⟨(c4_scale_intrinsic_rows [⟨⟨2, 0, 4⟩, ⟨0, 6, 8⟩, ⟨0, 0, 1⟩⟩] 2).1,
   (c4_scale_intrinsic_rows [⟨⟨2, 0, 4⟩, ⟨0, 6, 8⟩, ⟨0, 0, 1⟩⟩] 2).2 0
     (by decide)⟩

/-- Product of a 3×3 matrix with a 3-vector. -/
def mulMV (K : M33 ℚ) (v : V3 ℚ) : V3 ℚ :=
  ⟨K.r0.x * v.x + K.r0.y * v.y + K.r0.z * v.z,
   K.r1.x * v.x + K.r1.y * v.y + K.r1.z * v.z,
   K.r2.x * v.x + K.r2.y * v.y + K.r2.z * v.z⟩

/-- The identity intrinsic matrix. -/
def idM33 : M33 ℚ := ⟨⟨1, 0, 0⟩, ⟨0, 1, 0⟩, ⟨0, 0, 1⟩⟩

/-- The epsilon `1e-10` added to the projective depth denominator in
`SynthesizeBatchBasic.cam2pixel`. -/
def depthEps : ℚ := 1 / 10000000000

/-- The denominator `pixel_scales + 1e-10` that `cam2pixel` divides by, for
one homogeneous source-frame point. -/
def cam2pixelDenom (intrinsic : M33 ℚ) (p : V4 ℚ) : ℚ :=
  (mulMV intrinsic ⟨p.x, p.y, p.z⟩).z + depthEps

/-- Embeds `SynthesizeBatchBasic.cam2pixel`
(`model/synthesize/synthesize_base.py`) for one point: the homogeneous
source-frame point is sliced to its first three components, multiplied by
the intrinsic matrix, and every component is divided by the third component
plus `1e-10`. -/
def cam2pixel (intrinsic : M33 ℚ) (p : V4 ℚ) : V3 ℚ :=
  let pix := mulMV intrinsic ⟨p.x, p.y, p.z⟩
  let s := pix.z + depthEps
  ⟨pix.x / s, pix.y / s, pix.z / s⟩

/-- `cam2pixel` applied to a whole batch of source-frame camera points. -/
def cam2pixel_batch (intrinsic : M33 ℚ) (pts : List (V4 ℚ)) : List (V3 ℚ) :=
  pts.map (cam2pixel intrinsic)

/-- C5. The claim as stated is false on the code: the epsilon guard does not
rule out division by exactly zero for every finite input — for the identity
intrinsic and the finite source-frame point `(0, 0, -1e-10, 1)` the
normalization denominator of `cam2pixel` is exactly 0. -/
theorem c5_counterexample :
    cam2pixelDenom idM33 ⟨0, 0, -(1 / 10000000000), 1⟩ = 0 := by
  norm_num [cam2pixelDenom, mulMV, idM33, depthEps]

/-- C5 (amended). For every source-frame point whose projected third (depth)
component is nonnegative — which holds in the synthesis pipeline, where the
denominator comes from scene depth — the guarded denominator is at least
`1e-10`, hence strictly positive: division by exactly zero never occurs and
the projected coordinates are well defined. -/
theorem c5_cam2pixel_guard (intrinsic : M33 ℚ) (p : V4 ℚ)
    (h : 0 ≤ (mulMV intrinsic ⟨p.x, p.y, p.z⟩).z) :
    0 < cam2pixelDenom intrinsic p := by
  have heps : (0 : ℚ) < depthEps := by norm_num [depthEps]
  unfold cam2pixelDenom
  linarith

/-- C5 witness: the identity intrinsic and the point `(0, 0, 0, 1)` with
zero projective depth satisfy the hypothesis, and the guarded denominator is
strictly positive there. -/
theorem c5_cam2pixel_guard_witness :
    0 ≤ (mulMV idM33 ⟨(0 : ℚ), 0, 0⟩).z
    ∧ 0 < cam2pixelDenom idM33 ⟨0, 0, 0, 1⟩ :=
  ⟨by norm_num [mulMV, idM33],
   c5_cam2pixel_guard idM33 ⟨0, 0, 0, 1⟩ (by norm_num [mulMV, idM33])⟩

section LoadWeights

variable {P : Type}

/-- The checkpoint file path `op.join(ckpt_dir_path, f"{netname}_{suffix}.h5")`
built by `ModelWrapper.load_weights`. -/
def ckptFilePath (ckptDirPath netname suffix : String) : String :=
  ckptDirPath ++ "/" ++ netname ++ "_" ++ suffix ++ ".h5"

/-- Embeds `ModelWrapper.load_weights` (`model/build_model/model_wrappers.py`).
The filesystem is a partial map from paths to stored weight snapshots and
`models` associates sub-network names with their current parameters.  Each
sub-network whose snapshot file exists receives the stored weights; a
missing snapshot leaves that sub-network's parameters unchanged and only
adds a diagnostic line.  The function is total, so it returns normally in
every case. -/
def load_weights (models : List (String × P)) (fileSystem : String → Option P)
    (ckptDirPath suffix : String) : List (String × P) × List String :=
  (models.map (fun nm =>
      match fileSystem (ckptFilePath ckptDirPath nm.1 suffix) with
      | some w => (nm.1, w)
      | none => nm),
   models.map (fun nm =>
      match fileSystem (ckptFilePath ckptDirPath nm.1 suffix) with
      | some _ => "===== " ++ nm.1 ++ " weights loaded"
      | none => "===== Failed to load weights of " ++ nm.1
          ++ ", train from scratch ..."))

lemma getD_map_of_lt {α β : Type} (f : α → β) (l : List α) (d : α) (d' : β) :
    ∀ i, i < l.length → (l.map f).getD i d' = f (l.getD i d) := by
  induction l with
  | nil => intro i h; simp at h
  | cons a as ih =>
    intro i h
    cases i with
    | zero => simp
    | succ n => simpa using ih n (Nat.lt_of_succ_lt_succ h)

/-- C8. `load_weights` keeps one entry per sub-network; for every index, if
the sub-network's snapshot file exists the stored weights are loaded, and if
it is missing the sub-network's existing parameters are left unchanged while
a failure diagnostic is recorded — never a hard failure. -/
theorem c8_load_weights_fallback (models : List (String × P))
    (fileSystem : String → Option P) (ckptDirPath suffix : String)
    (dflt : String × P) :
    (load_weights models fileSystem ckptDirPath suffix).1.length = models.length
    ∧ (∀ i, i < models.length → ∀ w,
        fileSystem (ckptFilePath ckptDirPath (models.getD i dflt).1 suffix)
            = some w →
        (load_weights models fileSystem ckptDirPath suffix).1.getD i dflt
          = ((models.getD i dflt).1, w))
    ∧ (∀ i, i < models.length →
        fileSystem (ckptFilePath ckptDirPath (models.getD i dflt).1 suffix)
            = none →
        (load_weights models fileSystem ckptDirPath suffix).1.getD i dflt
            = models.getD i dflt
        ∧ (load_weights models fileSystem ckptDirPath suffix).2.getD i ("")
            = "===== Failed to load weights of " ++ (models.getD i dflt).1
                ++ ", train from scratch ...") := by
  refine ⟨by simp [load_weights], ?_, ?_⟩
  · intro i h w hfs
    rw [load_weights]
    rw [getD_map_of_lt _ models dflt _ i h, hfs]
  · intro i h hfs
    constructor
    · rw [load_weights]
      rw [getD_map_of_lt _ models dflt _ i h, hfs]
    · rw [load_weights]
      rw [getD_map_of_lt _ models dflt ("") i h, hfs]

/-- C8 witness: two sub-networks, of which only the first has a snapshot on
disk; the first receives the stored weights, the second keeps its parameters
and gets the failure diagnostic. -/
theorem c8_load_weights_fallback_witness :
    (load_weights [(("a"), (3 : ℤ)), (("b"), 4)]
        (fun s => if s = "d/a_s.h5" then some 7 else none) ("d") ("s")).1.length
      = [(("a"), (3 : ℤ)), (("b"), 4)].length
    ∧ (load_weights [(("a"), (3 : ℤ)), (("b"), 4)]
        (fun s => if s = "d/a_s.h5" then some 7 else none) ("d") ("s")).1.getD 0
          (("z"), 0)
      = (([(("a"), (3 : ℤ)), (("b"), 4)].getD 0 (("z"), 0)).1, 7)
    ∧ (load_weights [(("a"), (3 : ℤ)), (("b"), 4)]
        (fun s => if s = "d/a_s.h5" then some 7 else none) ("d") ("s")).1.getD 1
          (("z"), 0)
      = [(("a"), (3 : ℤ)), (("b"), 4)].getD 1 (("z"), 0) := by
  have h := c8_load_weights_fallback [(("a"), (3 : ℤ)), (("b"), 4)]
    (fun s => if s = "d/a_s.h5" then some 7 else none) ("d") ("s") (("z"), 0)
  exact ⟨h.1,
    h.2.1 0 (by decide) 7 (by decide),
    (h.2.2 1 (by decide) (by decide)).1⟩

end LoadWeights

section ImageReader

variable {α : Type}

/-- Embeds `image_reader` (`tfrecords/tfrecord_writer.py`) acting on the
rows of the on-disk stacked snippet image: with
`height = image.shape[0] // snippet_len` and `half_len = snippet_len // 2`,
the block of rows above the target, the block below it, and the target block
are concatenated in that order, moving the temporal-median target frame to
the bottom. -/
def image_reader (snippetLen : ℕ) (image : List α) : List α :=
  let height := image.length / snippetLen
  let halfLen := snippetLen / 2
  let srcUp := image.take (height * halfLen)
  let target := (image.drop (height * halfLen)).take height
  let srcDw := image.drop (height * (halfLen + 1))
  srcUp ++ srcDw ++ target

/-- C9. For a stacked snippet image of five frames of `h` rows each in
on-disk temporal order `[src0 src1 tgt src2 src3]`, `image_reader` returns
an image of the same shape made of exactly the same five frame sub-images,
with the four source frames first in their original relative order and the
target frame last at the bottom. -/
theorem c9_image_reader_reorders (h : ℕ) (f0 f1 f2 f3 f4 : List α)
    (h0 : f0.length = h) (h1 : f1.length = h) (h2 : f2.length = h)
    (h3 : f3.length = h) (h4 : f4.length = h) :
    image_reader 5 (f0 ++ f1 ++ f2 ++ f3 ++ f4)
      = f0 ++ f1 ++ f3 ++ f4 ++ f2
    ∧ (image_reader 5 (f0 ++ f1 ++ f2 ++ f3 ++ f4)).length
      = (f0 ++ f1 ++ f2 ++ f3 ++ f4).length := by
  have hheight : (f0 ++ f1 ++ f2 ++ f3 ++ f4).length / 5 = h := by
    simp [h0, h1, h2, h3, h4]
    omega
  have h52 : (5 : ℕ) / 2 = 2 := by norm_num
  have etake : (f0 ++ f1 ++ f2 ++ f3 ++ f4).take (h * 2) = f0 ++ f1 := by
    rw [show f0 ++ f1 ++ f2 ++ f3 ++ f4
        = (f0 ++ f1) ++ (f2 ++ (f3 ++ f4)) by simp [List.append_assoc]]
    exact List.take_left' (by simp [h0, h1]; omega)
  have edrop2 : (f0 ++ f1 ++ f2 ++ f3 ++ f4).drop (h * 2)
      = f2 ++ (f3 ++ f4) := by
    rw [show f0 ++ f1 ++ f2 ++ f3 ++ f4
        = (f0 ++ f1) ++ (f2 ++ (f3 ++ f4)) by simp [List.append_assoc]]
    exact List.drop_left' (by simp [h0, h1]; omega)
  have edrop3 : (f0 ++ f1 ++ f2 ++ f3 ++ f4).drop (h * (2 + 1))
      = f3 ++ f4 := by
    rw [show f0 ++ f1 ++ f2 ++ f3 ++ f4
        = ((f0 ++ f1) ++ f2) ++ (f3 ++ f4) by simp [List.append_assoc]]
    exact List.drop_left' (by simp [h0, h1, h2]; omega)
  have emain : image_reader 5 (f0 ++ f1 ++ f2 ++ f3 ++ f4)
      = f0 ++ f1 ++ f3 ++ f4 ++ f2 := by
    simp only [image_reader, hheight, h52, etake, edrop2, edrop3]
    rw [List.take_left' h2]
    simp [List.append_assoc]
  refine ⟨emain, ?_⟩
  rw [emain]
  simp [h0, h1, h2, h3, h4]

/-- C9 witness: a five-row image with one row per frame; the reader moves
the middle (target) row to the bottom and keeps the length. -/
theorem c9_image_reader_reorders_witness :
    image_reader 5 ([0] ++ [1] ++ [2] ++ [3] ++ [4])
      = [0] ++ [1] ++ [3] ++ [4] ++ [2]
    ∧ (image_reader 5 ([0] ++ [1] ++ [2] ++ [3] ++ [4])).length
      = (([0] ++ [1] ++ [2] ++ [3] ++ [4]) : List ℕ).length :=
  c9_image_reader_reorders 1 [0] [1] [2] [3] [4] rfl rfl rfl rfl rfl

end ImageReader

/-- Embeds `num_shards = max(min(num_images // 2000, 10), 1)` from
`TfrecordMaker.make` (`tfrecords/tfrecord_writer.py`). -/
def numShards (numImages : ℕ) : ℕ := max (min (numImages / 2000) 10) 1

/-- The example indices `TfrecordMaker.make` writes: shard `si` writes the
sequential examples `range(si * num_images_per_shard,
(si+1) * num_images_per_shard)` with
`num_images_per_shard = num_images // num_shards`. -/
def writtenExamples (numImages : ℕ) : List ℕ :=
  let nShards := numShards numImages
  let perShard := numImages / nShards
  ((List.range nShards).map
    (fun si => List.range' (si * perShard) perShard)).flatten

/-- C10. `TfrecordMaker.make` writes exactly
`num_shards * (num_images // num_shards)` examples, and every example index
at or beyond that bound — the trailing `num_images mod num_shards`
examples — is never written to any shard. -/
theorem c10_shard_bookkeeping (numImages : ℕ) :
    (writtenExamples numImages).length
        = numShards numImages * (numImages / numShards numImages)
    ∧ numImages - numShards numImages * (numImages / numShards numImages)
        = numImages % numShards numImages
    ∧ ∀ i, numShards numImages * (numImages / numShards numImages) ≤ i →
        i ∉ writtenExamples numImages := by
  refine ⟨?_, ?_, ?_⟩
  · simp [writtenExamples, Function.comp_def, List.map_const']
  · have := Nat.div_add_mod numImages (numShards numImages)
    omega
  · intro i hi hmem
    rw [writtenExamples] at hmem
    simp only [List.mem_flatten, List.mem_map, List.mem_range] at hmem
    obtain ⟨s, ⟨si, hsi, rfl⟩, hin⟩ := hmem
    rw [List.mem_range'_1] at hin
    have hub : si * (numImages / numShards numImages)
        + numImages / numShards numImages
        ≤ numShards numImages * (numImages / numShards numImages) := by
      have : (si + 1) * (numImages / numShards numImages)
          ≤ numShards numImages * (numImages / numShards numImages) :=
        Nat.mul_le_mul_right _ hsi
      calc si * (numImages / numShards numImages)
            + numImages / numShards numImages
          = (si + 1) * (numImages / numShards numImages) := by ring
        _ ≤ _ := this
    omega

section PoseConversion

/-- A 4×4 homogeneous transformation matrix. -/
structure M44 (α : Type) where
  a00 : α
  a01 : α
  a02 : α
  a03 : α
  a10 : α
  a11 : α
  a12 : α
  a13 : α
  a20 : α
  a21 : α
  a22 : α
  a23 : α
  a30 : α
  a31 : α
  a32 : α
  a33 : α
  deriving DecidableEq, Repr

/-- A 6-vector twist: 3 translation components plus a 3-vector axis-angle
rotation. -/
structure Twist where
  t : V3 ℝ
  r : V3 ℝ

/-- Skew-symmetric cross-product matrix of a 3-vector. -/
noncomputable def skew3 (r : V3 ℝ) : M33 ℝ :=
  ⟨⟨0, -r.z, r.y⟩, ⟨r.z, 0, -r.x⟩, ⟨-r.y, r.x, 0⟩⟩

/-- Entrywise sum of two 3×3 real matrices. -/
noncomputable def m33Add (A B : M33 ℝ) : M33 ℝ :=
  ⟨⟨A.r0.x + B.r0.x, A.r0.y + B.r0.y, A.r0.z + B.r0.z⟩,
   ⟨A.r1.x + B.r1.x, A.r1.y + B.r1.y, A.r1.z + B.r1.z⟩,
   ⟨A.r2.x + B.r2.x, A.r2.y + B.r2.y, A.r2.z + B.r2.z⟩⟩

/-- Scalar multiple of a 3×3 real matrix. -/
noncomputable def m33Smul (s : ℝ) (A : M33 ℝ) : M33 ℝ :=
  ⟨⟨s * A.r0.x, s * A.r0.y, s * A.r0.z⟩,
   ⟨s * A.r1.x, s * A.r1.y, s * A.r1.z⟩,
   ⟨s * A.r2.x, s * A.r2.y, s * A.r2.z⟩⟩

/-- Product of two 3×3 real matrices. -/
noncomputable def m33Mul (A B : M33 ℝ) : M33 ℝ :=
  ⟨⟨A.r0.x * B.r0.x + A.r0.y * B.r1.x + A.r0.z * B.r2.x,
    A.r0.x * B.r0.y + A.r0.y * B.r1.y + A.r0.z * B.r2.y,
    A.r0.x * B.r0.z + A.r0.y * B.r1.z + A.r0.z * B.r2.z⟩,
   ⟨A.r1.x * B.r0.x + A.r1.y * B.r1.x + A.r1.z * B.r2.x,
    A.r1.x * B.r0.y + A.r1.y * B.r1.y + A.r1.z * B.r2.y,
    A.r1.x * B.r0.z + A.r1.y * B.r1.z + A.r1.z * B.r2.z⟩,
   ⟨A.r2.x * B.r0.x + A.r2.y * B.r1.x + A.r2.z * B.r2.x,
    A.r2.x * B.r0.y + A.r2.y * B.r1.y + A.r2.z * B.r2.y,
    A.r2.x * B.r0.z + A.r2.y * B.r1.z + A.r2.z * B.r2.z⟩⟩

/-- The 3×3 identity matrix over ℝ. -/
noncomputable def m33Id : M33 ℝ := ⟨⟨1, 0, 0⟩, ⟨0, 1, 0⟩, ⟨0, 0, 1⟩⟩

/-- Modelled from the spec: the rotation part of `rvec_to_matrix` of the
Pose Conversion component (`utils/convert_pose.py`, whose source is not in
the repository snapshot).  Rodrigues' formula (exponential map)
`R = I + (sin a / a)·K + ((1 - cos a) / a²)·K²` with `a` the norm of the
rotation 3-vector and `K` its skew matrix, guarded at zero angle to be the
identity (the numerically-stable near-zero-rotation case the spec calls
for). -/
noncomputable def rodriguesRot (r : V3 ℝ) : M33 ℝ :=
  let angle := Real.sqrt (r.x ^ 2 + r.y ^ 2 + r.z ^ 2)
  if angle = 0 then m33Id
  else
    m33Add (m33Add m33Id (m33Smul (Real.sin angle / angle) (skew3 r)))
      (m33Smul ((1 - Real.cos angle) / angle ^ 2) (m33Mul (skew3 r) (skew3 r)))

/-- Modelled from the spec: `rvec_to_matrix(pose_6vec) -> 4x4` of the Pose
Conversion component — applies the exponential map to the rotation part,
places the translation in the last column, and fixes the bottom row at
`[0, 0, 0, 1]`. -/
noncomputable def rvec_to_matrix (p : Twist) : M44 ℝ :=
  let R := rodriguesRot p.r
  ⟨R.r0.x, R.r0.y, R.r0.z, p.t.x,
   R.r1.x, R.r1.y, R.r1.z, p.t.y,
   R.r2.x, R.r2.y, R.r2.z, p.t.z,
   0, 0, 0, 1⟩

/-- Modelled from the spec: the rotation angle recovered from a pose matrix
by the logarithm map, `arccos((trace(R) - 1) / 2)`. -/
noncomputable def rotAngle (T : M44 ℝ) : ℝ :=
  Real.arccos ((T.a00 + T.a11 + T.a22 - 1) / 2)

/-- Modelled from the spec: the axis-angle 3-vector recovered from a pose
matrix — `angle / (2 sin angle)` times the off-diagonal skew differences,
with the near-zero-rotation case guarded to the zero vector. -/
noncomputable def logRot (T : M44 ℝ) : V3 ℝ :=
  if Real.sin (rotAngle T) = 0 then ⟨0, 0, 0⟩
  else
    ⟨rotAngle T / (2 * Real.sin (rotAngle T)) * (T.a21 - T.a12),
     rotAngle T / (2 * Real.sin (rotAngle T)) * (T.a02 - T.a20),
     rotAngle T / (2 * Real.sin (rotAngle T)) * (T.a10 - T.a01)⟩

/-- Modelled from the spec: `matrix_to_rvec(pose_4x4) -> 6vec` of the Pose
Conversion component — the translation is extracted directly from the last
column and the axis-angle rotation is recovered via the logarithm map. -/
noncomputable def matrix_to_rvec (T : M44 ℝ) : Twist :=
  ⟨⟨T.a03, T.a13, T.a23⟩, logRot T⟩

lemma rot_norm_eq (k : V3 ℝ) (θ : ℝ) (hk : k.x ^ 2 + k.y ^ 2 + k.z ^ 2 = 1)
    (hθ : 0 ≤ θ) :
    Real.sqrt ((θ * k.x) ^ 2 + (θ * k.y) ^ 2 + (θ * k.z) ^ 2) = θ := by
  have hsq : (θ * k.x) ^ 2 + (θ * k.y) ^ 2 + (θ * k.z) ^ 2 = θ ^ 2 := by
    have h : (θ * k.x) ^ 2 + (θ * k.y) ^ 2 + (θ * k.z) ^ 2
        = θ ^ 2 * (k.x ^ 2 + k.y ^ 2 + k.z ^ 2) := by ring
    rw [h, hk, mul_one]
  rw [hsq]
  exact Real.sqrt_sq hθ

lemma rodrigues_trace (k : V3 ℝ) (θ : ℝ)
    (hk : k.x ^ 2 + k.y ^ 2 + k.z ^ 2 = 1) (hθ : 0 < θ) :
    (rodriguesRot ⟨θ * k.x, θ * k.y, θ * k.z⟩).r0.x
      + (rodriguesRot ⟨θ * k.x, θ * k.y, θ * k.z⟩).r1.y
      + (rodriguesRot ⟨θ * k.x, θ * k.y, θ * k.z⟩).r2.z
      = 1 + 2 * Real.cos θ := by
  rw [rodriguesRot]
  simp only [rot_norm_eq k θ hk hθ.le, if_neg (ne_of_gt hθ), m33Add, m33Smul,
    m33Mul, m33Id, skew3]
  have hθ0 : θ ≠ 0 := ne_of_gt hθ
  field_simp
  linear_combination (2 * (Real.cos θ - 1)) * θ ^ 2 * hk

lemma rodrigues_offdiag (k : V3 ℝ) (θ : ℝ)
    (hk : k.x ^ 2 + k.y ^ 2 + k.z ^ 2 = 1) (hθ : 0 < θ) :
    (rodriguesRot ⟨θ * k.x, θ * k.y, θ * k.z⟩).r2.y
        - (rodriguesRot ⟨θ * k.x, θ * k.y, θ * k.z⟩).r1.z
      = 2 * Real.sin θ * k.x
    ∧ (rodriguesRot ⟨θ * k.x, θ * k.y, θ * k.z⟩).r0.z
        - (rodriguesRot ⟨θ * k.x, θ * k.y, θ * k.z⟩).r2.x
      = 2 * Real.sin θ * k.y
    ∧ (rodriguesRot ⟨θ * k.x, θ * k.y, θ * k.z⟩).r1.x
        - (rodriguesRot ⟨θ * k.x, θ * k.y, θ * k.z⟩).r0.y
      = 2 * Real.sin θ * k.z := by
  have hθ0 : θ ≠ 0 := ne_of_gt hθ
  rw [rodriguesRot]
  simp only [rot_norm_eq k θ hk hθ.le, if_neg hθ0, m33Add, m33Smul, m33Mul,
    m33Id, skew3]
  refine ⟨?_, ?_, ?_⟩ <;> (field_simp; ring)

/-- C7. Pose round-trip: for every twist whose rotation part is `θ·k` with
`k` a unit axis and `θ ∈ (0, π)`, `matrix_to_rvec (rvec_to_matrix p)`
recovers `p` exactly (hence within any numeric tolerance), and at rotation
angle zero the round-trip yields the zero rotation vector, with every
quantity a well-defined real number. -/
theorem c7_pose_round_trip :
    (∀ (t k : V3 ℝ) (θ : ℝ),
        k.x ^ 2 + k.y ^ 2 + k.z ^ 2 = 1 → 0 < θ → θ < Real.pi →
        matrix_to_rvec (rvec_to_matrix ⟨t, ⟨θ * k.x, θ * k.y, θ * k.z⟩⟩)
          = ⟨t, ⟨θ * k.x, θ * k.y, θ * k.z⟩⟩)
    ∧ ∀ t : V3 ℝ,
        matrix_to_rvec (rvec_to_matrix ⟨t, ⟨0, 0, 0⟩⟩) = ⟨t, ⟨0, 0, 0⟩⟩ := by
  constructor
  · intro t k θ hk hθ hθπ
    have hsinθ : 0 < Real.sin θ := Real.sin_pos_of_pos_of_lt_pi hθ hθπ
    have hang : rotAngle (rvec_to_matrix ⟨t, ⟨θ * k.x, θ * k.y, θ * k.z⟩⟩) = θ := by
      rw [rotAngle]
      simp only [rvec_to_matrix]
      rw [rodrigues_trace k θ hk hθ]
      rw [show (1 + 2 * Real.cos θ - 1) / 2 = Real.cos θ by ring]
      exact Real.arccos_cos hθ.le hθπ.le
    obtain ⟨e1, e2, e3⟩ := rodrigues_offdiag k θ hk hθ
    rw [matrix_to_rvec, logRot, hang, if_neg (ne_of_gt hsinθ)]
    simp only [rvec_to_matrix]
    rw [e1, e2, e3]
    have hs0 : Real.sin θ ≠ 0 := ne_of_gt hsinθ
    simp only [Twist.mk.injEq, V3.mk.injEq]
    refine ⟨trivial, ?_, ?_, ?_⟩ <;> (field_simp; ring)
  · intro t
    have hrot : rodriguesRot ⟨0, 0, 0⟩ = m33Id := by
      rw [rodriguesRot]
      norm_num
    have hang0 : rotAngle (rvec_to_matrix ⟨t, ⟨0, 0, 0⟩⟩) = 0 := by
      rw [rotAngle]
      simp only [rvec_to_matrix, hrot, m33Id]
      norm_num [Real.arccos_one]
    rw [matrix_to_rvec, logRot, hang0, if_pos Real.sin_zero]
    rfl

/-- C7 witness: the axis `(1, 0, 0)` with rotation angle `π/2` satisfies the
hypotheses, and the round-trip recovers the twist exactly. -/
theorem c7_pose_round_trip_witness :
    ((⟨1, 0, 0⟩ : V3 ℝ).x ^ 2 + (⟨1, 0, 0⟩ : V3 ℝ).y ^ 2
        + (⟨1, 0, 0⟩ : V3 ℝ).z ^ 2 = 1)
    ∧ 0 < Real.pi / 2 ∧ Real.pi / 2 < Real.pi
    ∧ matrix_to_rvec (rvec_to_matrix ⟨⟨0, 0, 0⟩,
        ⟨Real.pi / 2 * 1, Real.pi / 2 * 0, Real.pi / 2 * 0⟩⟩)
      = ⟨⟨0, 0, 0⟩, ⟨Real.pi / 2 * 1, Real.pi / 2 * 0, Real.pi / 2 * 0⟩⟩ := by
  have h1 : ((⟨1, 0, 0⟩ : V3 ℝ)).x ^ 2 + ((⟨1, 0, 0⟩ : V3 ℝ)).y ^ 2
      + ((⟨1, 0, 0⟩ : V3 ℝ)).z ^ 2 = 1 := by norm_num
  have h2 : 0 < Real.pi / 2 := half_pos Real.pi_pos
  have h3 : Real.pi / 2 < Real.pi := by linarith [Real.pi_pos]
  exact ⟨h1, h2, h3,
    c7_pose_round_trip.1 ⟨0, 0, 0⟩ ⟨1, 0, 0⟩ (Real.pi / 2) h1 h2 h3⟩

end PoseConversion

end Vode
